import Mathlib

/- Verification of two IR lowering passes of this repository:

   * mesalib/src/compiler/nir/nir_split_var_copies.c — the NIR "copy
     splitting" pass (`split_deref_copy_instr`, `split_var_copies_impl`,
     `nir_split_var_copies`), embedded in namespace `NirSplit`;
   * lower_subroutine.cpp — the GLSL IR "subroutine lowering" pass
     (`lower_subroutine_visitor::visit_leave`, `lower_subroutine`),
     embedded in namespace `LowerSubr`.

   Each C/C++ function is translated to an executable Lean definition over
   explicit IR values; instruction lists stand for the blocks' instruction
   streams, and object identities (needed for clone reasoning) are modelled
   as natural-number tags. -/

namespace NirSplit

/-- Shader value types as dispatched on by the copy-splitting recursion:
exactly the five kinds of the data model (scalar, vector, matrix,
array, struct).  A matrix records columns and rows; an array its element
type and static length; a struct its ordered field types. -/
inductive GlslType where
  | scalar : GlslType
  | vector (components : Nat) : GlslType
  | matrix (cols rows : Nat) : GlslType
  | array (elem : GlslType) (len : Nat) : GlslType
  | struct (fields : List GlslType) : GlslType

mutual

/-- Size measure on types used only for termination of the splitting
recursion (mutually with `tsizeList` over struct field lists). -/
def GlslType.tsize : GlslType → Nat
  | .scalar => 1
  | .vector _ => 1
  | .matrix _ _ => 2
  | .array e _ => e.tsize + 1
  | .struct fs => tsizeList fs + 1

/-- Size measure of a struct field list, for termination only. -/
def tsizeList : List GlslType → Nat
  | [] => 0
  | f :: rest => f.tsize + tsizeList rest + 1

end

/-- Translation of `glsl_type_is_vector_or_scalar`. -/
def glsl_type_is_vector_or_scalar : GlslType → Bool
  | .scalar => true
  | .vector _ => true
  | _ => false

/-- Translation of `glsl_type_is_struct`. -/
def glsl_type_is_struct : GlslType → Bool
  | .struct _ => true
  | _ => false

/-- Translation of `glsl_type_is_matrix`. -/
def glsl_type_is_matrix : GlslType → Bool
  | .matrix _ _ => true
  | _ => false

/-- Translation of `glsl_type_is_array`. -/
def glsl_type_is_array : GlslType → Bool
  | .array _ _ => true
  | _ => false

/-- Translation of `glsl_get_length` as used by the pass: for a struct,
the number of fields (the bound of the field loop). -/
def glsl_get_length : GlslType → Nat
  | .struct fs => fs.length
  | .array _ n => n
  | _ => 0

/-- Step of a dereference chain: structure field access by index, concrete
array index, or the wildcard array index introduced by the pass. -/
inductive DerefStep where
  | field (i : Nat)
  | arrayIndex (i : Nat)
  | arrayWildcard
deriving DecidableEq

/-- Dereference chain (`nir_deref_instr` chain): a root variable with its
declared type plus the ordered steps.  The `type` field a NIR deref
instruction stores is recovered by `derefType`, folding the steps over the
root type; the NIR builders keep the stored and resolved types equal. -/
structure Deref where
  var : Nat
  rootType : GlslType
  steps : List DerefStep

/-- Translation of `nir_build_deref_struct`: child deref for field `i`. -/
def nir_build_deref_struct (d : Deref) (i : Nat) : Deref :=
  { d with steps := d.steps ++ [DerefStep.field i] }

/-- Translation of `nir_build_deref_array_wildcard`: child deref with a
wildcard array step. -/
def nir_build_deref_array_wildcard (d : Deref) : Deref :=
  { d with steps := d.steps ++ [DerefStep.arrayWildcard] }

/-- Child type of one deref step: declared field type for a struct,
element type for an array, column type for a matrix; `none` marks a
malformed step (an assertion failure in the source). -/
def stepType : GlslType → DerefStep → Option GlslType
  | .struct fs, .field i => fs[i]?
  | .array e _, .arrayIndex _ => some e
  | .array e _, .arrayWildcard => some e
  | .matrix _ r, .arrayIndex _ => some (.vector r)
  | .matrix _ r, .arrayWildcard => some (.vector r)
  | _, _ => none

/-- Resolve a list of deref steps over a starting type. -/
def resolveSteps : GlslType → List DerefStep → Option GlslType
  | t, [] => some t
  | t, s :: rest =>
    match stepType t s with
    | some t2 => resolveSteps t2 rest
    | none => none

/-- Resolved type of a deref chain (the stored `deref->type` in NIR). -/
def derefType (d : Deref) : Option GlslType :=
  resolveSteps d.rootType d.steps

/-- NIR instruction as far as this pass observes it: a
`nir_intrinsic_copy_deref` between two deref chains (`ty` mirrors the
stored `src->type`, equal to the resolved type for well-formed chains),
any other intrinsic, or a non-intrinsic instruction. -/
inductive Instr where
  | copy (dst src : Deref) (ty : GlslType)
  | intrinsic (tag : Nat)
  | other (tag : Nat)

mutual

/-- Translation of `split_deref_copy_instr`: recursion keyed on the shared
type of the dst/src pair (the source reads it from `src->type`).  A
scalar or vector emits one `nir_copy_deref`; a struct recurses on each
field index `0..glsl_get_length` in order (`splitStructFields` walks the
field-type list carrying the next index, exactly the source's `for` loop);
otherwise the type is a matrix or an array and the recursion descends
exactly once on the wildcard-extended pair. -/
def split_deref_copy_instr : GlslType → Deref → Deref → List Instr
  | .scalar, dst, src => [Instr.copy dst src .scalar]
  | .vector n, dst, src => [Instr.copy dst src (.vector n)]
  | .struct fs, dst, src => splitStructFields fs 0 dst src
  | .matrix _ r, dst, src =>
    split_deref_copy_instr (.vector r)
      (nir_build_deref_array_wildcard dst) (nir_build_deref_array_wildcard src)
  | .array e _, dst, src =>
    split_deref_copy_instr e
      (nir_build_deref_array_wildcard dst) (nir_build_deref_array_wildcard src)
termination_by ty _ _ => ty.tsize
decreasing_by
  all_goals (simp [GlslType.tsize, tsizeList]; try omega)

/-- Field loop of `split_deref_copy_instr`: recurse on each field index in
declaration order. -/
def splitStructFields : List GlslType → Nat → Deref → Deref → List Instr
  | [], _, _, _ => []
  | f :: rest, i, dst, src =>
    split_deref_copy_instr f
      (nir_build_deref_struct dst i) (nir_build_deref_struct src i)
      ++ splitStructFields rest (i + 1) dst src
termination_by fs _ _ _ => tsizeList fs
decreasing_by
  all_goals (simp [GlslType.tsize, tsizeList]; try omega)

end

mutual

/-- Instrumentation of `split_deref_copy_instr` for reasoning about its
assertions: the list of every `(type, dst, src)` triple the recursion is
invoked on, mirroring the recursion's call tree step for step. -/
def splitCallPairs : GlslType → Deref → Deref → List (GlslType × Deref × Deref)
  | .scalar, dst, src => [(.scalar, dst, src)]
  | .vector n, dst, src => [(.vector n, dst, src)]
  | .struct fs, dst, src => (.struct fs, dst, src) :: splitFieldPairs fs 0 dst src
  | .matrix c r, dst, src =>
    (.matrix c r, dst, src) ::
      splitCallPairs (.vector r)
        (nir_build_deref_array_wildcard dst) (nir_build_deref_array_wildcard src)
  | .array e n, dst, src =>
    (.array e n, dst, src) ::
      splitCallPairs e
        (nir_build_deref_array_wildcard dst) (nir_build_deref_array_wildcard src)
termination_by ty _ _ => ty.tsize
decreasing_by
  all_goals (simp [GlslType.tsize, tsizeList]; try omega)

/-- Instrumentation of the field loop of `split_deref_copy_instr`. -/
def splitFieldPairs : List GlslType → Nat → Deref → Deref → List (GlslType × Deref × Deref)
  | [], _, _, _ => []
  | f :: rest, i, dst, src =>
    splitCallPairs f
      (nir_build_deref_struct dst i) (nir_build_deref_struct src i)
      ++ splitFieldPairs rest (i + 1) dst src
termination_by fs _ _ _ => tsizeList fs
decreasing_by
  all_goals (simp [GlslType.tsize, tsizeList]; try omega)

end

/-- Translation of the block walk of `split_var_copies_impl`: every
`nir_intrinsic_copy_deref` instruction is removed and its split emitted at
its position (the builder cursor sits right before the removed
instruction); any such instruction sets `progress`.  Every other
instruction is left in place. -/
def split_var_copies_block : List Instr → List Instr × Bool
  | [] => ([], false)
  | Instr.copy dst src ty :: rest =>
    let r := split_var_copies_block rest
    (split_deref_copy_instr ty dst src ++ r.1, true)
  | i :: rest =>
    let r := split_var_copies_block rest
    (i :: r.1, r.2)

/-- Per-function validity flags of derived analyses (`impl->valid_metadata`):
block indexing, dominance, one representative further analysis, and the
debug-only `nir_metadata_not_properly_reset` bit. -/
structure Metadata where
  block_index : Bool
  dominance : Bool
  live_ssa_defs : Bool
  not_properly_reset : Bool
deriving DecidableEq

/-- Modelled from the spec: `nir_metadata_preserve` itself is not among the
source files; per the metadata-validity tracker contract, declaring a set
of analyses preserved keeps exactly their validity flags and clears every
other bit of the record.  The pass declares
`nir_metadata_block_index | nir_metadata_dominance` preserved. -/
def nir_metadata_preserve_bi_dom (m : Metadata) : Metadata :=
  { block_index := m.block_index, dominance := m.dominance,
    live_ssa_defs := false, not_properly_reset := false }

/-- Translation of `split_var_copies_impl`: split every copy in the body;
on progress declare block-index and dominance preserved, otherwise only
clear the debug-only `not_properly_reset` bit. -/
def split_var_copies_impl (body : List Instr) (m : Metadata) :
    (List Instr × Metadata) × Bool :=
  let r := split_var_copies_block body
  if r.2 then ((r.1, nir_metadata_preserve_bi_dom m), true)
  else ((r.1, { m with not_properly_reset := false }), false)

/-- NIR function: an optional implementation (body plus metadata record);
`nir_foreach_function` skips functions without an implementation. -/
structure NirFunction where
  impl : Option (List Instr × Metadata)

/-- Translation of the pass entry point `nir_split_var_copies`: run
`split_var_copies_impl` on every function that has an implementation and
accumulate the progress flags with `||`. -/
def nir_split_var_copies : List NirFunction → List NirFunction × Bool
  | [] => ([], false)
  | f :: rest =>
    let r := nir_split_var_copies rest
    match f.impl with
    | some (body, m) =>
      let ri := split_var_copies_impl body m
      ({ impl := some ri.1 } :: r.1, ri.2 || r.2)
    | none => (f :: r.1, r.2)

/-- Example type of the spec's structural-equivalence property: a struct
with a `vec3` field and a `float[4]` field. -/
def exType : GlslType := .struct [.vector 3, .array .scalar 4]

/-- Example destination chain: a bare variable of `exType`. -/
def exDst : Deref := { var := 0, rootType := exType, steps := [] }

/-- Example source chain: a bare variable of `exType`. -/
def exSrc : Deref := { var := 1, rootType := exType, steps := [] }

/-- Example function body: one whole-struct copy. -/
def exBody : List Instr := [Instr.copy exDst exSrc exType]

/-- Example body whose only copy is already a scalar leaf copy. -/
def leafBody : List Instr :=
  [Instr.copy { var := 0, rootType := .scalar, steps := [] }
    { var := 1, rootType := .scalar, steps := [] } .scalar]

/-- Example metadata record with block-index and dominance valid. -/
def exMeta : Metadata :=
  { block_index := true, dominance := true, live_ssa_defs := false,
    not_properly_reset := false }

/-- Example one-function shader whose body is `leafBody`. -/
def leafShader : List NirFunction := [{ impl := some (leafBody, exMeta) }]

end NirSplit

namespace LowerSubr

/-- GLSL type as the lowering pass observes it: an opaque base type
(subroutine interface types are interned, compared by identity) possibly
wrapped in arrays. -/
inductive SubrType where
  | base (id : Nat) : SubrType
  | array (elem : SubrType) (len : Nat) : SubrType
deriving DecidableEq

/-- Translation of `glsl_type::without_array`: strip every enclosing array
layer. -/
def SubrType.without_array : SubrType → SubrType
  | .array e _ => e.without_array
  | .base i => .base i

/-- Function signature: an identifying tag plus its parameter types. -/
structure Signature where
  tag : Nat
  params : List SubrType
deriving DecidableEq

/-- Candidate function of the subroutine registry (`ir_function` restricted
to what the pass reads): its declared interface-type set
(`subroutine_types`) and its overload signatures. -/
structure IrFunction where
  subroutine_types : List SubrType
  signatures : List Signature
deriving DecidableEq, Inhabited

/-- Parse state as the pass reads it: `state->subroutines`, the registry of
subroutine-implementing functions in their fixed order
(`num_subroutines` is its length). -/
structure LowerState where
  subroutines : List IrFunction

/-- Return destination chain (`ir_dereference_variable *return_deref`):
`id` models the node's object identity, `ty` its resolved type. -/
structure RetDeref where
  id : Nat
  ty : Nat
deriving DecidableEq

/-- Bound-variable rvalue built per branch: `ir_dereference_array` of the
subroutine variable with the cloned index when `array_idx` is present,
otherwise `ir_dereference_variable`. -/
inductive BoundVar where
  | derefVariable (v : Nat)
  | derefArray (v : Nat) (idx : Nat)
deriving DecidableEq

/-- Indirect call (`ir_call` with non-null `sub_var`): the bound variable,
its declared type, an optional constant array index, the types of the
actual parameters, and the optional return destination chain. -/
structure IrCall where
  sub_var : Nat
  sub_var_type : SubrType
  array_idx : Option Nat
  actual_params : List SubrType
  return_deref : Option RetDeref
deriving DecidableEq

/-- Direct call built for one branch of the ladder: the resolved callee
signature (null when exact matching failed), the return destination used,
and the forwarded actual parameters. -/
structure LoweredCall where
  callee : Option Signature
  return_deref : Option RetDeref
  params : List SubrType
deriving DecidableEq

/-- If-ladder node: `last` is `if_tree(cond, then)` (no else), `cons` is
`if_tree(cond, then, else)`; the condition is
`equal(subr_to_int(var), lc)` with `lc` the registry-index constant. -/
inductive IrIf where
  | last (var : BoundVar) (lc : Nat) (call : LoweredCall) : IrIf
  | cons (var : BoundVar) (lc : Nat) (call : LoweredCall) (els : IrIf) : IrIf
deriving DecidableEq

/-- Compatibility test of `visit_leave`: the call's bound-variable type
with arrays stripped is among the candidate's declared interface types. -/
def is_compat (fn : IrFunction) (ty : SubrType) : Bool :=
  fn.subroutine_types.any (fun t => ty.without_array == t)

/-- Modelled from the spec: `ir_function::exact_matching_signature` is not
among the source files; it returns the signature whose parameter types
exactly match the call's actual argument types, if any. -/
def exact_matching_signature (fn : IrFunction) (actuals : List SubrType) :
    Option Signature :=
  fn.signatures.find? (fun sig => sig.params == actuals)

/-- Bound-variable rvalue built for a branch (see `BoundVar`). -/
def bound_var (ir : IrCall) : BoundVar :=
  match ir.array_idx with
  | some idx => .derefArray ir.sub_var idx
  | none => .derefVariable ir.sub_var

/-- Clone of the return destination chain: a fresh object identity with the
same resolved type.  Cloning the null chain is undefined behaviour in the
source (a null `this`); it is modelled as null. -/
def clone_ret (r : Option RetDeref) (fresh : Nat) : Option RetDeref :=
  r.map (fun rd => { id := fresh, ty := rd.ty })

/-- Loop state of `visit_leave`: the accumulated ladder (`last_branch`),
the current return destination, and the next fresh object identity for
clones. -/
structure VisitAcc where
  last_branch : Option IrIf
  return_deref : Option RetDeref
  next_id : Nat

/-- Translation of the candidate loop of
`lower_subroutine_visitor::visit_leave`.  The fuel argument `s + 1`
processes registry index `s`, so calling with `num_subroutines` walks the
indices from highest to lowest exactly like the source's
`for (int s = num_subroutines - 1; s >= 0; s--)`.  An incompatible
candidate is skipped (`continue`); a compatible one gets a branch whose
condition compares the bound value with the index constant and whose body
is a direct call to the exact-matching signature, the new branch taking
the accumulated ladder as its else part; after building a branch at index
`s > 0` the return destination is replaced by a clone. -/
def visit_loop (st : LowerState) (ir : IrCall) : Nat → VisitAcc → VisitAcc
  | 0, acc => acc
  | s + 1, acc =>
    let fn := st.subroutines.getD s default
    if is_compat fn ir.sub_var_type then
      let var := bound_var ir
      let sub_sig := exact_matching_signature fn ir.actual_params
      let new_call : LoweredCall :=
        { callee := sub_sig, return_deref := acc.return_deref,
          params := ir.actual_params }
      let lb : IrIf :=
        match acc.last_branch with
        | none => .last var s new_call
        | some prev => .cons var s new_call prev
      let acc2 : VisitAcc :=
        if s > 0 then
          { last_branch := some lb,
            return_deref := clone_ret acc.return_deref acc.next_id,
            next_id := acc.next_id + 1 }
        else
          { acc with last_branch := some lb }
      visit_loop st ir s acc2
    else
      visit_loop st ir s acc

/-- Ladder built by `visit_leave` for one indirect call: run the candidate
loop over the whole registry starting from the original return
destination; fresh clone identities start right above the original's. -/
def lower_call (st : LowerState) (ir : IrCall) : Option IrIf :=
  (visit_loop st ir st.subroutines.length
    { last_branch := none, return_deref := ir.return_deref,
      next_id :=
        match ir.return_deref with
        | some r => r.id + 1
        | none => 0 }).last_branch

/-- Instruction of a GLSL IR instruction stream as the pass observes it:
an indirect call (`ir_call` with `sub_var` set), a direct call
(`sub_var` null, skipped by `visit_leave`), an if node, or any other
instruction. -/
inductive SInstr where
  | call (ir : IrCall)
  | directCall (tag : Nat)
  | ifInstr (i : IrIf)
  | other (tag : Nat)
deriving DecidableEq

/-- Instruction-stream walk of the pass: each indirect call has its ladder
(if any) inserted immediately before it and is then removed
unconditionally; everything else is left in place. -/
def lower_body (st : LowerState) : List SInstr → List SInstr
  | [] => []
  | SInstr.call ir :: rest =>
    (match lower_call st ir with
     | some lb => [SInstr.ifInstr lb]
     | none => []) ++ lower_body st rest
  | i :: rest => i :: lower_body st rest

/-- Translation of the pass entry point `lower_subroutine`: visit the
instruction list and return the visitor's `progress` field.  The source
initialises `progress` to `false` in the visitor's constructor and never
assigns it anywhere, so the entry point always returns `false`. -/
def lower_subroutine (st : LowerState) (instructions : List SInstr) :
    List SInstr × Bool :=
  (lower_body st instructions, false)

/-- Eligible registry indices below `n` for a bound-variable type, in
ascending order. -/
def eligibleUpTo (st : LowerState) (ty : SubrType) (n : Nat) : List Nat :=
  (List.range n).filter (fun s => is_compat (st.subroutines.getD s default) ty)

/-- Eligible registry indices for an indirect call, in ascending order. -/
def eligibleIndices (st : LowerState) (ir : IrCall) : List Nat :=
  eligibleUpTo st ir.sub_var_type st.subroutines.length

/-- Branch constants of a ladder, outermost first. -/
def ladderConsts : IrIf → List Nat
  | .last _ lc _ => [lc]
  | .cons _ lc _ els => lc :: ladderConsts els

/-- Branch constants of an optional ladder, outermost first. -/
def optConsts : Option IrIf → List Nat
  | none => []
  | some l => ladderConsts l

/-- Branch callees of a ladder, outermost first. -/
def ladderCallees : IrIf → List (Option Signature)
  | .last _ _ c => [c.callee]
  | .cons _ _ c els => c.callee :: ladderCallees els

/-- Branch callees of an optional ladder, outermost first. -/
def optCallees : Option IrIf → List (Option Signature)
  | none => []
  | some l => ladderCallees l

/-- Branch return destinations of a ladder, outermost first. -/
def ladderRets : IrIf → List (Option RetDeref)
  | .last _ _ c => [c.return_deref]
  | .cons _ _ c els => c.return_deref :: ladderRets els

/-- Branch return destinations of an optional ladder, outermost first. -/
def optRets : Option IrIf → List (Option RetDeref)
  | none => []
  | some l => ladderRets l

/-- Metadata effect of the lowering pass, modelled from the spec: the pass
declares no preserved analyses, and the pipeline's validity tracker treats
a pass that declares nothing as implicit full invalidation of the
derived-analysis flags. -/
def invalidate_all (m : NirSplit.Metadata) : NirSplit.Metadata :=
  { block_index := false, dominance := false, live_ssa_defs := false,
    not_properly_reset := m.not_properly_reset }

/-- Subroutine lowering seen through the metadata validity tracker (see
`invalidate_all`). -/
def lower_subroutine_tracked (st : LowerState) (instructions : List SInstr)
    (m : NirSplit.Metadata) : (List SInstr × NirSplit.Metadata) × Bool :=
  let r := lower_subroutine st instructions
  ((r.1, invalidate_all m), r.2)

/-- Test for an indirect call (`ir->sub_var` non-null). -/
def isIndirect : SInstr → Bool
  | .call _ => true
  | _ => false

/-- Example interface type. -/
def tyT : SubrType := .base 0

/-- Example interface type distinct from `tyT`. -/
def tyU : SubrType := .base 1

/-- Example candidate declaring interface type `tyT`, with a nullary
signature. -/
def fnT : IrFunction := { subroutine_types := [tyT], signatures := [{ tag := 0, params := [] }] }

/-- Example candidate declaring interface type `tyU`. -/
def fnU : IrFunction := { subroutine_types := [tyU], signatures := [{ tag := 1, params := [] }] }

/-- Example registry with candidates at indices 1, 3, 4 declaring `tyT`. -/
def exState : LowerState := { subroutines := [fnU, fnT, fnU, fnT, fnT] }

/-- Example indirect call of bound-variable type `tyT` with a return
destination chain of identity 7 and type 3. -/
def exCall : IrCall :=
  { sub_var := 5, sub_var_type := tyT, array_idx := none, actual_params := [],
    return_deref := some { id := 7, ty := 3 } }

/-- Example candidate eligible for `tyT` whose sole signature does not
match an empty actual-parameter list. -/
def fnNoMatch : IrFunction :=
  { subroutine_types := [tyT], signatures := [{ tag := 0, params := [tyU] }] }

/-- Example registry containing only `fnNoMatch`. -/
def noMatchState : LowerState := { subroutines := [fnNoMatch] }

/-- Example indirect call for which exact-overload matching fails on the
only eligible candidate. -/
def noMatchCall : IrCall :=
  { sub_var := 5, sub_var_type := tyT, array_idx := none, actual_params := [],
    return_deref := none }

/-- Example registry with the single candidate `fnT`. -/
def progState : LowerState := { subroutines := [fnT] }

/-- Example indirect call that `progState` lowers to a one-branch ladder. -/
def progCall : IrCall :=
  { sub_var := 5, sub_var_type := tyT, array_idx := none, actual_params := [],
    return_deref := none }

/-- Example program consisting of the single indirect call `progCall`. -/
def progBody : List SInstr := [SInstr.call progCall]

/-- Example registry with no candidates, so nothing is eligible. -/
def emptyState : LowerState := { subroutines := [] }

end LowerSubr

open NirSplit LowerSubr

theorem resolveSteps_append (x : DerefStep) :
    ∀ (steps : List DerefStep) (t : GlslType),
      resolveSteps t (steps ++ [x])
        = (resolveSteps t steps).bind (fun u => stepType u x)
  | [], t => by
    cases h : stepType t x <;> simp [resolveSteps, h]
  | s :: rest, t => by
    cases h : stepType t s with
    | none => simp [resolveSteps, h]
    | some t2 => simp [resolveSteps, h, resolveSteps_append x rest t2]

theorem derefType_struct_step (d : Deref) (i : Nat) :
    derefType (nir_build_deref_struct d i)
      = (derefType d).bind (fun u => stepType u (DerefStep.field i)) := by
  simp [derefType, nir_build_deref_struct, resolveSteps_append]

theorem derefType_wildcard_step (d : Deref) :
    derefType (nir_build_deref_array_wildcard d)
      = (derefType d).bind (fun u => stepType u DerefStep.arrayWildcard) := by
  simp [derefType, nir_build_deref_array_wildcard, resolveSteps_append]

mutual

theorem split_leaf_inv : ∀ (ty : GlslType) (dst src : Deref),
    derefType dst = some ty → derefType src = some ty →
    ∀ ins ∈ split_deref_copy_instr ty dst src,
      ∃ d2 s2 t2, ins = Instr.copy d2 s2 t2 ∧ derefType d2 = some t2 ∧
        derefType s2 = some t2 ∧ glsl_type_is_vector_or_scalar t2 = true
  | .scalar, dst, src => by
    intro hd hs ins hins
    simp [split_deref_copy_instr] at hins
    exact ⟨dst, src, .scalar, hins, hd, hs, rfl⟩
  | .vector n, dst, src => by
    intro hd hs ins hins
    simp [split_deref_copy_instr] at hins
    exact ⟨dst, src, .vector n, hins, hd, hs, rfl⟩
  | .struct fs, dst, src => by
    intro hd hs ins hins
    rw [split_deref_copy_instr] at hins
    exact splitFields_leaf_inv fs fs 0 dst src hd hs rfl ins hins
  | .matrix c r, dst, src => by
    intro hd hs ins hins
    rw [split_deref_copy_instr] at hins
    refine split_leaf_inv (.vector r) (nir_build_deref_array_wildcard dst)
      (nir_build_deref_array_wildcard src) ?_ ?_ ins hins
    · rw [derefType_wildcard_step, hd]; rfl
    · rw [derefType_wildcard_step, hs]; rfl
  | .array e n, dst, src => by
    intro hd hs ins hins
    rw [split_deref_copy_instr] at hins
    refine split_leaf_inv e (nir_build_deref_array_wildcard dst)
      (nir_build_deref_array_wildcard src) ?_ ?_ ins hins
    · rw [derefType_wildcard_step, hd]; rfl
    · rw [derefType_wildcard_step, hs]; rfl
termination_by ty _ _ => ty.tsize
decreasing_by
  all_goals (simp [GlslType.tsize, tsizeList]; try omega)

theorem splitFields_leaf_inv : ∀ (F fs : List GlslType) (i : Nat) (dst src : Deref),
    derefType dst = some (.struct F) → derefType src = some (.struct F) →
    F.drop i = fs →
    ∀ ins ∈ splitStructFields fs i dst src,
      ∃ d2 s2 t2, ins = Instr.copy d2 s2 t2 ∧ derefType d2 = some t2 ∧
        derefType s2 = some t2 ∧ glsl_type_is_vector_or_scalar t2 = true
  | F, [], i, dst, src => by
    intro _ _ _ ins hins
    simp [splitStructFields] at hins
  | F, f :: rest, i, dst, src => by
    intro hd hs hdrop ins hins
    have hFi : F[i]? = some f := by
      have h0 : (F.drop i)[0]? = some f := by rw [hdrop]; simp
      rwa [List.getElem?_drop, Nat.add_zero] at h0
    rw [splitStructFields] at hins
    rcases List.mem_append.mp hins with hmem | hmem
    · refine split_leaf_inv f (nir_build_deref_struct dst i)
        (nir_build_deref_struct src i) ?_ ?_ ins hmem
      · rw [derefType_struct_step, hd]; simp [stepType, hFi]
      · rw [derefType_struct_step, hs]; simp [stepType, hFi]
    · refine splitFields_leaf_inv F rest (i + 1) dst src hd hs ?_ ins hmem
      have h1 : F.drop (i + 1) = (F.drop i).drop 1 := by
        rw [List.drop_drop]
      rw [h1, hdrop]
      rfl
termination_by _ fs _ _ _ => tsizeList fs
decreasing_by
  all_goals (simp [GlslType.tsize, tsizeList]; try omega)

end

mutual

theorem splitPairs_inv : ∀ (ty : GlslType) (dst src : Deref),
    derefType dst = some ty → derefType src = some ty →
    ∀ p ∈ splitCallPairs ty dst src,
      derefType p.2.1 = some p.1 ∧ derefType p.2.2 = some p.1
  | .scalar, dst, src => by
    intro hd hs p hp
    simp [splitCallPairs] at hp
    rw [hp]
    exact ⟨hd, hs⟩
  | .vector n, dst, src => by
    intro hd hs p hp
    simp [splitCallPairs] at hp
    rw [hp]
    exact ⟨hd, hs⟩
  | .struct fs, dst, src => by
    intro hd hs p hp
    rw [splitCallPairs] at hp
    rcases List.mem_cons.mp hp with hp0 | hp1
    · rw [hp0]; exact ⟨hd, hs⟩
    · exact splitFieldPairs_inv fs fs 0 dst src hd hs rfl p hp1
  | .matrix c r, dst, src => by
    intro hd hs p hp
    rw [splitCallPairs] at hp
    rcases List.mem_cons.mp hp with hp0 | hp1
    · rw [hp0]; exact ⟨hd, hs⟩
    · refine splitPairs_inv (.vector r) (nir_build_deref_array_wildcard dst)
        (nir_build_deref_array_wildcard src) ?_ ?_ p hp1
      · rw [derefType_wildcard_step, hd]; rfl
      · rw [derefType_wildcard_step, hs]; rfl
  | .array e n, dst, src => by
    intro hd hs p hp
    rw [splitCallPairs] at hp
    rcases List.mem_cons.mp hp with hp0 | hp1
    · rw [hp0]; exact ⟨hd, hs⟩
    · refine splitPairs_inv e (nir_build_deref_array_wildcard dst)
        (nir_build_deref_array_wildcard src) ?_ ?_ p hp1
      · rw [derefType_wildcard_step, hd]; rfl
      · rw [derefType_wildcard_step, hs]; rfl
termination_by ty _ _ => ty.tsize
decreasing_by
  all_goals (simp [GlslType.tsize, tsizeList]; try omega)

theorem splitFieldPairs_inv : ∀ (F fs : List GlslType) (i : Nat) (dst src : Deref),
    derefType dst = some (.struct F) → derefType src = some (.struct F) →
    F.drop i = fs →
    ∀ p ∈ splitFieldPairs fs i dst src,
      derefType p.2.1 = some p.1 ∧ derefType p.2.2 = some p.1
  | F, [], i, dst, src => by
    intro _ _ _ p hp
    simp [splitFieldPairs] at hp
  | F, f :: rest, i, dst, src => by
    intro hd hs hdrop p hp
    have hFi : F[i]? = some f := by
      have h0 : (F.drop i)[0]? = some f := by rw [hdrop]; simp
      rwa [List.getElem?_drop, Nat.add_zero] at h0
    rw [splitFieldPairs] at hp
    rcases List.mem_append.mp hp with hmem | hmem
    · refine splitPairs_inv f (nir_build_deref_struct dst i)
        (nir_build_deref_struct src i) ?_ ?_ p hmem
      · rw [derefType_struct_step, hd]; simp [stepType, hFi]
      · rw [derefType_struct_step, hs]; simp [stepType, hFi]
    · refine splitFieldPairs_inv F rest (i + 1) dst src hd hs ?_ p hmem
      have h1 : F.drop (i + 1) = (F.drop i).drop 1 := by
        rw [List.drop_drop]
      rw [h1, hdrop]
      rfl
termination_by _ fs _ _ _ => tsizeList fs
decreasing_by
  all_goals (simp [GlslType.tsize, tsizeList]; try omega)

end

/-- Claim C1: after the copy-splitting pass completes on a function body
whose copies are well formed (each stored type equals both chains'
resolved types), every remaining `Copy` instruction's dst and src chains
either resolve to a vector-or-scalar leaf type, or terminate in exactly
one `ArrayWildcard` step as the final step of the chain.  (In fact the
first disjunct always holds: the recursion bottoms out only at leaves.) -/
theorem split_var_copies_leaf_invariant (body : List Instr)
    (h : ∀ dst src ty, Instr.copy dst src ty ∈ body →
      derefType dst = some ty ∧ derefType src = some ty) :
    ∀ dst src ty, Instr.copy dst src ty ∈ (split_var_copies_block body).1 →
      ((∃ t, derefType dst = some t ∧ glsl_type_is_vector_or_scalar t = true) ∧
        (∃ t, derefType src = some t ∧ glsl_type_is_vector_or_scalar t = true))
      ∨ (dst.steps.getLast? = some DerefStep.arrayWildcard ∧
          src.steps.getLast? = some DerefStep.arrayWildcard ∧
          dst.steps.count DerefStep.arrayWildcard = 1 ∧
          src.steps.count DerefStep.arrayWildcard = 1) := by
  induction body with
  | nil =>
    intro dst src ty hmem
    simp [split_var_copies_block] at hmem
  | cons i rest ih =>
    have hrest : ∀ d2 s2 t2, Instr.copy d2 s2 t2 ∈ rest →
        derefType d2 = some t2 ∧ derefType s2 = some t2 := by
      intro d2 s2 t2 hm
      exact h d2 s2 t2 (List.mem_cons_of_mem i hm)
    intro dst src ty hmem
    cases i with
    | copy d0 s0 t0 =>
      simp only [split_var_copies_block] at hmem
      have h0 := h d0 s0 t0 (List.mem_cons_self _ _)
      rcases List.mem_append.mp hmem with hm1 | hm2
      · obtain ⟨d2, s2, t2, heq, hd2, hs2, hv⟩ :=
          split_leaf_inv t0 d0 s0 h0.1 h0.2 _ hm1
        injection heq with e1 e2 e3
        subst e1; subst e2; subst e3
        exact Or.inl ⟨⟨_, hd2, hv⟩, ⟨_, hs2, hv⟩⟩
      · exact ih hrest dst src ty hm2
    | intrinsic tag =>
      simp only [split_var_copies_block] at hmem
      rcases List.mem_cons.mp hmem with hm1 | hm2
      · exact absurd hm1 (by simp)
      · exact ih hrest dst src ty hm2
    | other tag =>
      simp only [split_var_copies_block] at hmem
      rcases List.mem_cons.mp hmem with hm1 | hm2
      · exact absurd hm1 (by simp)
      · exact ih hrest dst src ty hm2

/-- Witness for C1 at the concrete body `exBody` (one whole-struct copy). -/
theorem split_var_copies_leaf_invariant_witness :
    (∀ dst src ty, Instr.copy dst src ty ∈ exBody →
      derefType dst = some ty ∧ derefType src = some ty)
    ∧ (∀ dst src ty, Instr.copy dst src ty ∈ (split_var_copies_block exBody).1 →
      ((∃ t, derefType dst = some t ∧ glsl_type_is_vector_or_scalar t = true) ∧
        (∃ t, derefType src = some t ∧ glsl_type_is_vector_or_scalar t = true))
      ∨ (dst.steps.getLast? = some DerefStep.arrayWildcard ∧
          src.steps.getLast? = some DerefStep.arrayWildcard ∧
          dst.steps.count DerefStep.arrayWildcard = 1 ∧
          src.steps.count DerefStep.arrayWildcard = 1)) := by
  have hwf : ∀ dst src ty, Instr.copy dst src ty ∈ exBody →
      derefType dst = some ty ∧ derefType src = some ty := by
    intro dst src ty hm
    simp [exBody] at hm
    obtain ⟨e1, e2, e3⟩ := hm
    subst e1; subst e2; subst e3
    exact ⟨rfl, rfl⟩
  exact ⟨hwf, split_var_copies_leaf_invariant exBody hwf⟩

/-- Claim C2: the splitting recursion emits one copy for a leaf, recurses
per field for a struct and exactly once through a wildcard for an array;
so copying a struct of a `vec3` and a `float[4]` produces exactly the two
copies `dst.a = src.a` (leaf) and `dst.b[wildcard] = src.b[wildcard]`,
never four element-wise copies. -/
theorem split_struct_vec3_float4_two_copies (dst src : Deref) :
    split_deref_copy_instr (.struct [.vector 3, .array .scalar 4]) dst src
      = [Instr.copy (nir_build_deref_struct dst 0) (nir_build_deref_struct src 0)
          (.vector 3),
         Instr.copy
          (nir_build_deref_array_wildcard (nir_build_deref_struct dst 1))
          (nir_build_deref_array_wildcard (nir_build_deref_struct src 1))
          .scalar] := by
  simp [split_deref_copy_instr, splitStructFields]

/-- Claim C10: for a root copy whose dst and src chains resolve to the same
type, every recursive invocation of the splitting recursion sees dst and
src chains resolving to the invocation's type (the entry assertion
`dst->type == src->type` never fails), and any type that is neither leaf
nor struct is a matrix or an array (the exhaustiveness assertion never
fails over the five type kinds). -/
theorem split_deref_assertions_hold (ty : GlslType) (dst src : Deref)
    (hd : derefType dst = some ty) (hs : derefType src = some ty) :
    ∀ p ∈ splitCallPairs ty dst src,
      derefType p.2.1 = some p.1 ∧ derefType p.2.2 = some p.1
      ∧ (glsl_type_is_vector_or_scalar p.1 = false →
          glsl_type_is_struct p.1 = false →
          (glsl_type_is_matrix p.1 || glsl_type_is_array p.1) = true) := by
  intro p hp
  obtain ⟨h1, h2⟩ := splitPairs_inv ty dst src hd hs p hp
  refine ⟨h1, h2, ?_⟩
  intro hv hst
  cases h : p.1 <;> simp_all [glsl_type_is_vector_or_scalar, glsl_type_is_struct,
    glsl_type_is_matrix, glsl_type_is_array]

/-- Witness for C10 at the concrete pair of chains of type `exType`. -/
theorem split_deref_assertions_hold_witness :
    derefType exDst = some exType ∧ derefType exSrc = some exType ∧
    (∀ p ∈ splitCallPairs exType exDst exSrc,
      derefType p.2.1 = some p.1 ∧ derefType p.2.2 = some p.1
      ∧ (glsl_type_is_vector_or_scalar p.1 = false →
          glsl_type_is_struct p.1 = false →
          (glsl_type_is_matrix p.1 || glsl_type_is_array p.1) = true)) :=
  ⟨rfl, rfl, split_deref_assertions_hold exType exDst exSrc rfl rfl⟩

theorem split_block_append : ∀ (a b : List Instr),
    (split_var_copies_block (a ++ b)).1
      = (split_var_copies_block a).1 ++ (split_var_copies_block b).1
  | [], b => by simp [split_var_copies_block]
  | Instr.copy d s t :: rest, b => by
    simp only [List.cons_append, split_var_copies_block, List.append_eq,
      split_block_append rest b, List.append_assoc]
  | Instr.intrinsic tag :: rest, b => by
    simp only [List.cons_append, split_var_copies_block, List.append_eq,
      split_block_append rest b]
  | Instr.other tag :: rest, b => by
    simp only [List.cons_append, split_var_copies_block, List.append_eq,
      split_block_append rest b]

mutual

theorem block_split_fix : ∀ (ty : GlslType) (d s : Deref),
    (split_var_copies_block (split_deref_copy_instr ty d s)).1
      = split_deref_copy_instr ty d s
  | .scalar, d, s => by
    simp [split_deref_copy_instr, split_var_copies_block]
  | .vector n, d, s => by
    simp [split_deref_copy_instr, split_var_copies_block]
  | .struct fs, d, s => by
    rw [split_deref_copy_instr]
    exact block_splitFields_fix fs 0 d s
  | .matrix c r, d, s => by
    rw [split_deref_copy_instr]
    exact block_split_fix (.vector r) (nir_build_deref_array_wildcard d)
      (nir_build_deref_array_wildcard s)
  | .array e n, d, s => by
    rw [split_deref_copy_instr]
    exact block_split_fix e (nir_build_deref_array_wildcard d)
      (nir_build_deref_array_wildcard s)
termination_by ty _ _ => ty.tsize
decreasing_by
  all_goals (simp [GlslType.tsize, tsizeList]; try omega)

theorem block_splitFields_fix : ∀ (fs : List GlslType) (i : Nat) (d s : Deref),
    (split_var_copies_block (splitStructFields fs i d s)).1
      = splitStructFields fs i d s
  | [], i, d, s => by
    simp [splitStructFields, split_var_copies_block]
  | f :: rest, i, d, s => by
    rw [splitStructFields, split_block_append,
      block_split_fix f (nir_build_deref_struct d i) (nir_build_deref_struct s i),
      block_splitFields_fix rest (i + 1) d s]
termination_by fs _ _ _ => tsizeList fs
decreasing_by
  all_goals (simp [GlslType.tsize, tsizeList]; try omega)

end

theorem block_no_progress : ∀ (body : List Instr),
    (split_var_copies_block body).2 = false → (split_var_copies_block body).1 = body
  | [] => by simp [split_var_copies_block]
  | Instr.copy d s t :: rest => by
    simp [split_var_copies_block]
  | Instr.intrinsic tag :: rest => by
    intro hp
    simp only [split_var_copies_block] at hp ⊢
    rw [block_no_progress rest hp]
  | Instr.other tag :: rest => by
    intro hp
    simp only [split_var_copies_block] at hp ⊢
    rw [block_no_progress rest hp]

theorem block_list_fix : ∀ (body : List Instr),
    (split_var_copies_block (split_var_copies_block body).1).1
      = (split_var_copies_block body).1
  | [] => by simp [split_var_copies_block]
  | Instr.copy d s t :: rest => by
    simp only [split_var_copies_block, split_block_append,
      block_split_fix t d s, block_list_fix rest]
  | Instr.intrinsic tag :: rest => by
    simp only [split_var_copies_block, block_list_fix rest]
  | Instr.other tag :: rest => by
    simp only [split_var_copies_block, block_list_fix rest]

theorem impl_idempotent (body : List Instr) (m : Metadata) :
    (split_var_copies_impl (split_var_copies_impl body m).1.1
      (split_var_copies_impl body m).1.2).1
      = (split_var_copies_impl body m).1 := by
  by_cases hp1 : (split_var_copies_block body).2
  · by_cases hp2 : (split_var_copies_block (split_var_copies_block body).1).2 <;>
      simp [split_var_copies_impl, hp1, hp2, block_list_fix,
        nir_metadata_preserve_bi_dom]
  · have hp1f : (split_var_copies_block body).2 = false := by
      simpa using hp1
    have hb := block_no_progress body hp1f
    simp [split_var_copies_impl, hp1f, hb]

/-- Claim C6 (amended): the copy-splitting pass is idempotent on the
program: re-running it on its own output leaves every function body and
metadata record unchanged.  (The claim's assertion that the second run
reports `progress == false` fails; see the counterexample.) -/
theorem split_var_copies_idempotent : ∀ (shader : List NirFunction),
    (nir_split_var_copies (nir_split_var_copies shader).1).1
      = (nir_split_var_copies shader).1
  | [] => by simp [nir_split_var_copies]
  | f :: rest => by
    cases hf : f.impl with
    | none =>
      simp only [nir_split_var_copies, hf]
      simp [hf, split_var_copies_idempotent rest]
    | some bm =>
      simp only [nir_split_var_copies, hf]
      have hi := impl_idempotent bm.1 bm.2
      simp [split_var_copies_idempotent rest, hi]

/-- Counterexample to claim C6 as stated: on a program whose single body
already holds one leaf copy, the first run changes nothing, yet re-running
the pass on its own output still reports progress, because the pass sets
`progress` for every `copy_deref` intrinsic it encounters — split or
not. -/
theorem split_second_run_reports_progress :
    (nir_split_var_copies (nir_split_var_copies leafShader).1).2 = true
    ∧ (nir_split_var_copies leafShader).1 = leafShader := by
  constructor
  · simp [leafShader, leafBody, exMeta, nir_split_var_copies,
      split_var_copies_impl, split_var_copies_block, split_deref_copy_instr,
      nir_metadata_preserve_bi_dom]
  · simp [leafShader, leafBody, exMeta, nir_split_var_copies,
      split_var_copies_impl, split_var_copies_block, split_deref_copy_instr,
      nir_metadata_preserve_bi_dom]

/-- Claim C5 (code bug): `lower_subroutine` replaces an indirect call with
its if-ladder yet returns `false` — the visitor's `progress` flag is
initialised `false` and never assigned — contradicting the contract that a
pass entry point returns whether it modified the program.  Conversely
`nir_split_var_copies` returns `true` on a program it leaves unchanged
(a body holding only an already-split leaf copy). -/
theorem pass_progress_flags_wrong :
    ((lower_subroutine progState progBody).2 = false
      ∧ (lower_subroutine progState progBody).1 ≠ progBody)
    ∧ nir_split_var_copies leafShader = (leafShader, true) := by
  refine ⟨⟨rfl, by decide⟩, ?_⟩
  simp [leafShader, leafBody, exMeta, nir_split_var_copies,
    split_var_copies_impl, split_var_copies_block, split_deref_copy_instr,
    nir_metadata_preserve_bi_dom]

/-- Claim C7: on progress the copy-splitting pass preserves the
block-index and dominance validity flags (and on no progress touches only
the debug-only consistency bit), while the subroutine-lowering pass, which
declares no preserved analyses, leaves both flags invalid through the
validity tracker. -/
theorem metadata_preserve_and_invalidate :
    (∀ (body : List Instr) (m : Metadata), (split_var_copies_block body).2 = true →
      (split_var_copies_impl body m).1.2.block_index = m.block_index
        ∧ (split_var_copies_impl body m).1.2.dominance = m.dominance)
    ∧ (∀ (body : List Instr) (m : Metadata), (split_var_copies_block body).2 = false →
      (split_var_copies_impl body m).1.2 = { m with not_properly_reset := false })
    ∧ (∀ (st : LowerState) (instrs : List SInstr) (m : Metadata),
      (lower_subroutine_tracked st instrs m).1.2.block_index = false
        ∧ (lower_subroutine_tracked st instrs m).1.2.dominance = false) := by
  refine ⟨?_, ?_, ?_⟩
  · intro body m hp
    simp [split_var_copies_impl, hp, nir_metadata_preserve_bi_dom]
  · intro body m hp
    simp [split_var_copies_impl, hp]
  · intro st instrs m
    simp [lower_subroutine_tracked, invalidate_all, lower_subroutine]

/-- Witness for C7 at concrete inputs: a body with a whole-struct copy
(progress) keeps the valid flags of `exMeta`; the empty body (no progress)
only clears the consistency bit; a tracked lowering run invalidates
both flags. -/
theorem metadata_preserve_and_invalidate_witness :
    ((split_var_copies_block exBody).2 = true
      ∧ (split_var_copies_impl exBody exMeta).1.2.block_index = exMeta.block_index
      ∧ (split_var_copies_impl exBody exMeta).1.2.dominance = exMeta.dominance)
    ∧ ((split_var_copies_block []).2 = false
      ∧ (split_var_copies_impl [] exMeta).1.2
          = { exMeta with not_properly_reset := false })
    ∧ ((lower_subroutine_tracked progState progBody exMeta).1.2.block_index = false
      ∧ (lower_subroutine_tracked progState progBody exMeta).1.2.dominance = false) := by
  refine ⟨⟨rfl, metadata_preserve_and_invalidate.1 exBody exMeta rfl⟩,
    ⟨rfl, metadata_preserve_and_invalidate.2.1 [] exMeta rfl⟩,
    metadata_preserve_and_invalidate.2.2 progState progBody exMeta⟩

theorem eligibleUpTo_succ (st : LowerState) (ty : SubrType) (n : Nat) :
    eligibleUpTo st ty (n + 1)
      = if is_compat (st.subroutines.getD n default) ty
        then eligibleUpTo st ty n ++ [n] else eligibleUpTo st ty n := by
  by_cases h : is_compat (st.subroutines.getD n default) ty <;>
    (simp only [eligibleUpTo, List.range_succ, List.filter_append,
      List.filter_cons, List.filter_nil, h, if_pos, if_neg]; try simp [h])

theorem visit_loop_consts (st : LowerState) (ir : IrCall) : ∀ (n : Nat) (acc : VisitAcc),
    optConsts (visit_loop st ir n acc).last_branch
        = eligibleUpTo st ir.sub_var_type n ++ optConsts acc.last_branch
  | 0, acc => by simp [visit_loop, eligibleUpTo]
  | n + 1, acc => by
    rw [visit_loop, eligibleUpTo_succ]
    by_cases hc : is_compat (st.subroutines.getD n default) ir.sub_var_type
    · rw [if_pos hc, if_pos hc]
      cases hlb : acc.last_branch with
      | none =>
        simp only [hlb]
        by_cases hn : n > 0
        · rw [if_pos hn, visit_loop_consts st ir n _]
          simp [optConsts, ladderConsts]
        · rw [if_neg hn, visit_loop_consts st ir n _]
          simp [optConsts, ladderConsts]
      | some prev =>
        simp only [hlb]
        by_cases hn : n > 0
        · rw [if_pos hn, visit_loop_consts st ir n _]
          simp [optConsts, ladderConsts]
        · rw [if_neg hn, visit_loop_consts st ir n _]
          simp [optConsts, ladderConsts]
    · rw [if_neg hc, if_neg hc]
      exact visit_loop_consts st ir n acc

theorem visit_loop_callees (st : LowerState) (ir : IrCall) : ∀ (n : Nat) (acc : VisitAcc),
    optCallees (visit_loop st ir n acc).last_branch
        = (eligibleUpTo st ir.sub_var_type n).map
            (fun s => exact_matching_signature (st.subroutines.getD s default)
              ir.actual_params)
          ++ optCallees acc.last_branch
  | 0, acc => by simp [visit_loop, eligibleUpTo]
  | n + 1, acc => by
    rw [visit_loop, eligibleUpTo_succ]
    by_cases hc : is_compat (st.subroutines.getD n default) ir.sub_var_type
    · rw [if_pos hc, if_pos hc]
      cases hlb : acc.last_branch with
      | none =>
        simp only [hlb]
        by_cases hn : n > 0
        · rw [if_pos hn, visit_loop_callees st ir n _]
          simp [optCallees, ladderCallees]
        · rw [if_neg hn, visit_loop_callees st ir n _]
          simp [optCallees, ladderCallees]
      | some prev =>
        simp only [hlb]
        by_cases hn : n > 0
        · rw [if_pos hn, visit_loop_callees st ir n _]
          simp [optCallees, ladderCallees]
        · rw [if_neg hn, visit_loop_callees st ir n _]
          simp [optCallees, ladderCallees]
    · rw [if_neg hc, if_neg hc]
      exact visit_loop_callees st ir n acc

theorem lower_call_consts (st : LowerState) (ir : IrCall) :
    optConsts (lower_call st ir) = eligibleIndices st ir := by
  rw [lower_call]
  rw [visit_loop_consts st ir st.subroutines.length _]
  simp [optConsts, eligibleIndices]

theorem lower_call_callees (st : LowerState) (ir : IrCall) :
    optCallees (lower_call st ir)
      = (eligibleIndices st ir).map
          (fun s => exact_matching_signature (st.subroutines.getD s default)
            ir.actual_params) := by
  rw [lower_call]
  rw [visit_loop_callees st ir st.subroutines.length _]
  simp [optCallees, eligibleIndices]

theorem eligibleIndices_nodup (st : LowerState) (ir : IrCall) :
    (eligibleIndices st ir).Nodup :=
  (List.nodup_range _).filter _

theorem ladderConsts_ne_nil (l : IrIf) : ladderConsts l ≠ [] := by
  cases l <;> simp [ladderConsts]

theorem lower_call_eq_none_of_no_eligible (st : LowerState) (ir : IrCall)
    (h : eligibleIndices st ir = []) : lower_call st ir = none := by
  have hc := lower_call_consts st ir
  rw [h] at hc
  cases hl : lower_call st ir with
  | none => rfl
  | some l =>
    rw [hl] at hc
    exact absurd hc (ladderConsts_ne_nil l)

theorem visit_loop_rets (st : LowerState) (ir : IrCall) :
    ∀ (n : Nat) (lb : Option IrIf) (q : RetDeref) (f : Nat), q.id < f →
    ∃ ids : List Nat,
      optRets (visit_loop st ir n
          { last_branch := lb, return_deref := some q, next_id := f }).last_branch
          = ids.map (fun j => (some { id := j, ty := q.ty } : Option RetDeref))
            ++ optRets lb
      ∧ ids.length = (eligibleUpTo st ir.sub_var_type n).length
      ∧ List.Pairwise (fun a b => b < a) ids
      ∧ (∀ j ∈ ids, j = q.id ∨ (f ≤ j ∧ j < f + n))
      ∧ (ids = [] ∨ ids.getLast? = some q.id)
  | 0, lb, q, f => by
    intro hq
    refine ⟨[], ?_, ?_, ?_, ?_, ?_⟩ <;> simp [visit_loop, eligibleUpTo]
  | n + 1, lb, q, f => by
    intro hq
    rw [visit_loop]
    by_cases hc : is_compat (st.subroutines.getD n default) ir.sub_var_type
    · rw [if_pos hc]
      by_cases hn : n > 0
      · cases hlb : lb with
        | none =>
          dsimp only
          rw [if_pos hn]
          simp only [clone_ret, Option.map_some']
          obtain ⟨ids, h1, h2, h3, h4, h5⟩ :=
            visit_loop_rets st ir n
              (some (.last (bound_var ir) n
                { callee := exact_matching_signature (st.subroutines.getD n default)
                    ir.actual_params,
                  return_deref := some q, params := ir.actual_params }))
              { id := f, ty := q.ty } (f + 1) (by simp)
          refine ⟨ids ++ [q.id], ?_, ?_, ?_, ?_, ?_⟩
          · rw [h1]
            simp [optRets, ladderRets]
          · rw [eligibleUpTo_succ, if_pos hc]
            simp [h2]
          · rw [List.pairwise_append]
            refine ⟨h3, by simp, ?_⟩
            intro a ha b hb
            rcases h4 a ha with h | ⟨h, _⟩
            · simp at h
              simp at hb
              omega
            · simp at hb
              omega
          · intro j hj
            rcases List.mem_append.mp hj with hj | hj
            · rcases h4 j hj with h | ⟨ha, hb⟩
              · simp at h
                right
                omega
              · right
                omega
            · simp at hj
              left
              exact hj
          · right
            exact List.getLast?_concat _
        | some prev =>
          dsimp only
          rw [if_pos hn]
          simp only [clone_ret, Option.map_some']
          obtain ⟨ids, h1, h2, h3, h4, h5⟩ :=
            visit_loop_rets st ir n
              (some (.cons (bound_var ir) n
                { callee := exact_matching_signature (st.subroutines.getD n default)
                    ir.actual_params,
                  return_deref := some q, params := ir.actual_params } prev))
              { id := f, ty := q.ty } (f + 1) (by simp)
          refine ⟨ids ++ [q.id], ?_, ?_, ?_, ?_, ?_⟩
          · rw [h1]
            simp [optRets, ladderRets]
          · rw [eligibleUpTo_succ, if_pos hc]
            simp [h2]
          · rw [List.pairwise_append]
            refine ⟨h3, by simp, ?_⟩
            intro a ha b hb
            rcases h4 a ha with h | ⟨h, _⟩
            · simp at h
              simp at hb
              omega
            · simp at hb
              omega
          · intro j hj
            rcases List.mem_append.mp hj with hj | hj
            · rcases h4 j hj with h | ⟨ha, hb⟩
              · simp at h
                right
                omega
              · right
                omega
            · simp at hj
              left
              exact hj
          · right
            exact List.getLast?_concat _
      · have hn0 : n = 0 := by omega
        subst hn0
        cases hlb : lb with
        | none =>
          refine ⟨[q.id], ?_, ?_, ?_, ?_, ?_⟩
          · simp [visit_loop, optRets, ladderRets]
          · rw [eligibleUpTo_succ, if_pos hc]
            simp [eligibleUpTo]
          · simp
          · intro j hj
            simp at hj
            left
            exact hj
          · simp
        | some prev =>
          refine ⟨[q.id], ?_, ?_, ?_, ?_, ?_⟩
          · simp [visit_loop, optRets, ladderRets]
          · rw [eligibleUpTo_succ, if_pos hc]
            simp [eligibleUpTo]
          · simp
          · intro j hj
            simp at hj
            left
            exact hj
          · simp
    · rw [if_neg hc]
      obtain ⟨ids, h1, h2, h3, h4, h5⟩ := visit_loop_rets st ir n lb q f hq
      refine ⟨ids, h1, ?_, h3, ?_, h5⟩
      · rw [eligibleUpTo_succ, if_neg hc]
        exact h2
      · intro j hj
        rcases h4 j hj with h | ⟨ha, hb⟩
        · left; exact h
        · right
          exact ⟨ha, by omega⟩

/-- Counterexample to claim C3 as stated: with candidates at indices
1, 3, 4 all declaring the call's interface type, the outermost test of the
built ladder compares against 1 — the lowest eligible index — not the
highest (4): each new branch takes the accumulated ladder as its else
part, so the branch built last (lowest index) ends up outermost. -/
theorem ladder_outermost_is_lowest :
    eligibleIndices exState exCall = [1, 3, 4]
    ∧ optConsts (lower_call exState exCall) = [1, 3, 4]
    ∧ (optConsts (lower_call exState exCall)).head? = some 1 := by
  decide

/-- Claim C3 (amended): the ladder holds exactly one branch per eligible
registry index, each comparing the bound value against that index's
constant; walking indices highest to lowest with each new branch wrapping
the accumulator as its else part, the branch constants read ascending
outermost-first — the lowest eligible index is the outermost test — and a
runtime bound value among the eligible indices satisfies exactly one
branch condition. -/
theorem ladder_branches_eligible_exclusive (st : LowerState) (ir : IrCall) :
    optConsts (lower_call st ir) = eligibleIndices st ir
    ∧ ∀ v ∈ eligibleIndices st ir, (optConsts (lower_call st ir)).count v = 1 := by
  refine ⟨lower_call_consts st ir, ?_⟩
  intro v hv
  rw [lower_call_consts st ir]
  exact List.count_eq_one_of_mem (eligibleIndices_nodup st ir) hv

/-- Witness for the amended C3 at the registry with eligible indices
1, 3, 4 and runtime bound value 3. -/
theorem ladder_branches_eligible_exclusive_witness :
    optConsts (lower_call exState exCall) = eligibleIndices exState exCall
    ∧ (3 ∈ eligibleIndices exState exCall
        ∧ (optConsts (lower_call exState exCall)).count 3 = 1) :=
  ⟨(ladder_branches_eligible_exclusive exState exCall).1,
   by decide,
   (ladder_branches_eligible_exclusive exState exCall).2 3 (by decide)⟩

/-- Claim C4: for a lowered indirect call with a return destination, the
ladder's branch destinations are pairwise distinct objects sharing the
original's resolved type; exactly one branch — the first constructed,
i.e. the innermost, belonging to the highest eligible index — reuses the
original destination chain's identity, and every other branch holds an
independently constructed clone. -/
theorem ladder_return_dest_independence (st : LowerState) (ir : IrCall)
    (r : RetDeref) (hr : ir.return_deref = some r)
    (hne : eligibleIndices st ir ≠ []) :
    ∃ ids : List Nat,
      optRets (lower_call st ir)
          = ids.map (fun j => (some { id := j, ty := r.ty } : Option RetDeref))
      ∧ ids.length = (eligibleIndices st ir).length
      ∧ ids.getLast? = some r.id
      ∧ ids.Nodup
      ∧ ids.count r.id = 1 := by
  obtain ⟨ids, h1, h2, h3, h4, h5⟩ :=
    visit_loop_rets st ir st.subroutines.length none r (r.id + 1) (by omega)
  have hlen : ids.length = (eligibleIndices st ir).length := h2
  have hnil : ids ≠ [] := by
    intro hx
    rw [hx] at hlen
    exact hne (List.length_eq_zero.mp hlen.symm)
  have hlast : ids.getLast? = some r.id := by
    rcases h5 with h | h
    · exact absurd h hnil
    · exact h
  have hnd : ids.Nodup := by
    refine h3.imp ?_
    intro a b hab
    exact (Nat.ne_of_lt hab).symm
  refine ⟨ids, ?_, hlen, hlast, hnd, ?_⟩
  · rw [lower_call, hr]
    rw [h1]
    simp [optRets]
  · exact List.count_eq_one_of_mem hnd (List.mem_of_mem_getLast? (by simp [hlast]))

/-- Witness for C4 at the concrete call `exCall` (original destination
identity 7, type 3) over the registry with eligible indices 1, 3, 4. -/
theorem ladder_return_dest_independence_witness :
    exCall.return_deref = some { id := 7, ty := 3 }
    ∧ eligibleIndices exState exCall ≠ []
    ∧ (∃ ids : List Nat,
        optRets (lower_call exState exCall)
            = ids.map (fun j => (some { id := j, ty := 3 } : Option RetDeref))
        ∧ ids.length = (eligibleIndices exState exCall).length
        ∧ ids.getLast? = some 7
        ∧ ids.Nodup
        ∧ ids.count 7 = 1) :=
  ⟨rfl, by decide,
   ladder_return_dest_independence exState exCall { id := 7, ty := 3 } rfl (by decide)⟩

/-- Counterexample to claim C8 as stated: a candidate that is eligible but
has no exactly matching overload still contributes a branch to the ladder
— the source builds the branch's call unconditionally from the (null)
lookup result instead of skipping the candidate. -/
theorem no_match_still_contributes_branch :
    exact_matching_signature fnNoMatch noMatchCall.actual_params = none
    ∧ eligibleIndices noMatchState noMatchCall = [0]
    ∧ optConsts (lower_call noMatchState noMatchCall) = [0]
    ∧ optCallees (lower_call noMatchState noMatchCall) = [none] := by
  decide

/-- Claim C8 (amended): when exact-overload matching fails for an
otherwise-eligible candidate, that candidate still contributes its branch,
whose direct call carries the null result of the failed lookup; no error
is raised — every eligible index contributes exactly one branch whose
callee is the lookup's result. -/
theorem ladder_callees_are_lookup_results (st : LowerState) (ir : IrCall) :
    optCallees (lower_call st ir)
      = (eligibleIndices st ir).map
          (fun s => exact_matching_signature (st.subroutines.getD s default)
            ir.actual_params)
    ∧ (optCallees (lower_call st ir)).length = (eligibleIndices st ir).length := by
  refine ⟨lower_call_callees st ir, ?_⟩
  rw [lower_call_callees st ir]
  simp

theorem lower_body_append (st : LowerState) : ∀ (a b : List SInstr),
    lower_body st (a ++ b) = lower_body st a ++ lower_body st b
  | [], b => by simp [lower_body]
  | SInstr.call ir :: rest, b => by
    simp only [List.cons_append, lower_body, List.append_eq,
      lower_body_append st rest b, List.append_assoc]
  | SInstr.directCall tag :: rest, b => by
    simp only [List.cons_append, lower_body, List.append_eq,
      lower_body_append st rest b]
  | SInstr.ifInstr i :: rest, b => by
    simp only [List.cons_append, lower_body, List.append_eq,
      lower_body_append st rest b]
  | SInstr.other tag :: rest, b => by
    simp only [List.cons_append, lower_body, List.append_eq,
      lower_body_append st rest b]

theorem lower_body_no_indirect (st : LowerState) : ∀ (l : List SInstr),
    l.all (fun i => !isIndirect i) = true → lower_body st l = l
  | [] => by simp [lower_body]
  | i :: rest => by
    intro h
    rw [List.all_cons, Bool.and_eq_true] at h
    cases i with
    | call ir => simp [isIndirect] at h
    | directCall tag => simp only [lower_body, lower_body_no_indirect st rest h.2]
    | ifInstr l0 => simp only [lower_body, lower_body_no_indirect st rest h.2]
    | other tag => simp only [lower_body, lower_body_no_indirect st rest h.2]

/-- Claim C9: the ladder built for an indirect call (or nothing) is
spliced in immediately before the call, the call itself is removed
unconditionally, and the surrounding instructions are unchanged; with
zero eligible candidates the call simply vanishes — handled functionally,
no error is raised. -/
theorem lower_subroutine_splice (st : LowerState) (p1 p2 : List SInstr)
    (ir : IrCall)
    (h1 : p1.all (fun i => !isIndirect i) = true)
    (h2 : p2.all (fun i => !isIndirect i) = true) :
    lower_body st (p1 ++ SInstr.call ir :: p2)
      = p1 ++ (match lower_call st ir with
               | some lb => [SInstr.ifInstr lb]
               | none => []) ++ p2
    ∧ (eligibleIndices st ir = [] →
        lower_body st (p1 ++ SInstr.call ir :: p2) = p1 ++ p2) := by
  have key : lower_body st (p1 ++ SInstr.call ir :: p2)
      = p1 ++ (match lower_call st ir with
               | some lb => [SInstr.ifInstr lb]
               | none => []) ++ p2 := by
    rw [lower_body_append st p1 (SInstr.call ir :: p2),
      lower_body_no_indirect st p1 h1, lower_body,
      lower_body_no_indirect st p2 h2, List.append_assoc]
  refine ⟨key, ?_⟩
  intro hel
  rw [key, lower_call_eq_none_of_no_eligible st ir hel]
  simp

/-- Witness for C9: over the empty registry nothing is eligible, so the
indirect call between two unrelated instructions vanishes without
replacement. -/
theorem lower_subroutine_splice_witness :
    (([SInstr.other 0] : List SInstr).all (fun i => !isIndirect i) = true)
    ∧ (([SInstr.directCall 1] : List SInstr).all (fun i => !isIndirect i) = true)
    ∧ eligibleIndices emptyState noMatchCall = []
    ∧ lower_body emptyState
        ([SInstr.other 0] ++ SInstr.call noMatchCall :: [SInstr.directCall 1])
        = [SInstr.other 0] ++ [SInstr.directCall 1] :=
  ⟨by decide, by decide, by decide,
   (lower_subroutine_splice emptyState [SInstr.other 0] [SInstr.directCall 1]
      noMatchCall (by decide) (by decide)).2 (by decide)⟩
